import Mathlib

/-!
Verification of the adaptive-refinement driver and the custom decoder in
`b2duq.py` (blob2d UQ campaign script).

The script drives an external dimension-adaptive stochastic-collocation
library.  We embed the state the script itself reads and writes — the
adaptation-error history `analysis.get_adaptation_errors()` and the sample
table `analysis.samples` — as an explicit `AnalysisState`, and the external
library call `analysis.adapt_dimension(param, frame)` (together with the
`look_ahead` / `execute` / `collate` calls of one refinement, which only feed
it) as an abstract state transformer `adaptStep : AnalysisState → String →
AnalysisState`.  The control flow of `refine_sampling_plan`,
`refine_to_precision` and `refine_campaign` is translated from the source;
Python floats are modelled as rationals, and the partial operations
(`list[-1]`, `list[0]`, float division) as `Option`-valued, `none` standing
for the raised exception (`IndexError` / `ZeroDivisionError`).

Of the decoder `B2dDecoder` we embed `peak_reached` (a pure function of the
velocity list) and the dictionary assembled by `get_blob_info`; the upstream
xarray numerics that produce the four scalar quantities and the velocity
list are abstracted as inputs.
-/

/-- The slice of the easyvvuq `analysis` object the script reads and writes:
`analysis.get_adaptation_errors()` (an append-only history of adaptation
errors) and `analysis.samples[param]` (the recorded sample values of a
QoI, indexed by the QoI name). -/
structure AnalysisState where
  adaptation_errors : List ℚ
  samples : String → List ℚ

/-- `refine_sampling_plan(number_of_refinements, campaign, sampler, analysis,
param)` (b2duq.py lines 121-145): `number_of_refinements` repetitions of one
refinement — `look_ahead`, ensemble execution and collation, and
`adapt_dimension(param, data_frame)` — each repetition modelled by one
application of the abstract `adaptStep`. -/
def refine_sampling_plan (adaptStep : AnalysisState → String → AnalysisState)
    (number_of_refinements : Nat) (s : AnalysisState) (param : String) :
    AnalysisState :=
  match number_of_refinements with
  | 0 => s
  | Nat.succ n => refine_sampling_plan adaptStep n (adaptStep s param) param

/-- The error update of `refine_to_precision` (b2duq.py line 178):
`error = analysis.get_adaptation_errors()[-1] / analysis.samples[param][0]`.
`[-1]` on an empty history raises `IndexError`, `[0]` on an empty sample
list raises `IndexError`, and division by a zero first sample raises
`ZeroDivisionError`; all three are modelled as `none`. -/
def computeError (s : AnalysisState) (param : String) : Option ℚ :=
  match s.adaptation_errors.getLast? with
  | none => none
  | some e =>
    match (s.samples param)[0]? with
    | none => none
    | some v => if v = 0 then none else some (e / v)

/-- The `while` loop of `refine_to_precision` (b2duq.py lines 173-181), with
the loop variables `counter` and `error` explicit:
`while counter < minrefs or (error > tol and counter <= maxrefs)`, body
`refine_sampling_plan(1, …); counter += 1; error = …`.  Returns the final
`counter` together with the mutated analysis state; `none` models an
exception escaping from the error update. -/
def refineAux (adaptStep : AnalysisState → String → AnalysisState)
    (param : String) (tol : ℚ) (minrefs maxrefs : Nat)
    (counter : Nat) (error : ℚ) (s : AnalysisState) :
    Option (Nat × AnalysisState) :=
  if h : counter < minrefs ∨ (tol < error ∧ counter ≤ maxrefs) then
    match computeError (refine_sampling_plan adaptStep 1 s param) param with
    | none => none
    | some e =>
      refineAux adaptStep param tol minrefs maxrefs (counter + 1) e
        (refine_sampling_plan adaptStep 1 s param)
  else
    some (counter, s)
termination_by max minrefs (maxrefs + 1) - counter
decreasing_by
  rcases h with h | ⟨_, h⟩ <;> omega

/-- `refine_to_precision(campaign, sampler, analysis, param, tol, minrefs,
maxrefs)` (b2duq.py lines 147-181): `counter = 0; error = 1;` then the
`while` loop of `refineAux`; returns the number of refinements used (paired
here with the final analysis state, which the Python code mutates in
place). -/
def refine_to_precision (adaptStep : AnalysisState → String → AnalysisState)
    (param : String) (tol : ℚ) (minrefs maxrefs : Nat) (s : AnalysisState) :
    Option (Nat × AnalysisState) :=
  refineAux adaptStep param tol minrefs maxrefs 0 1 s

/-- `refine_campaign(campaign, sampler, analysis, output_columns)` (b2duq.py
lines 424-433): first `refine_to_precision(…, 'maxV', 0.01, 5, 10)`, then —
on the analysis state the first pass left behind —
`refine_to_precision(…, 'maxX', 0.01, 5, 10)`; returns both refinement
counts (`atRefs`, `mlRefs`) and the final state. -/
def refine_campaign (adaptStep : AnalysisState → String → AnalysisState)
    (s : AnalysisState) : Option ((Nat × Nat) × AnalysisState) :=
  match refine_to_precision adaptStep "maxV" (1/100) 5 10 s with
  | none => none
  | some (atRefs, s1) =>
    match refine_to_precision adaptStep "maxX" (1/100) 5 10 s1 with
    | none => none
    | some (mlRefs, s2) => some ((atRefs, mlRefs), s2)

/-- Python's `max` on a list of floats: `none` on the empty list
(`ValueError`), otherwise the greatest value. -/
def pymax (vels : List ℚ) : Option ℚ :=
  match vels with
  | [] => none
  | x :: xs => some (xs.foldl max x)

/-- `B2dDecoder.peak_reached(self, vels)` (b2duq.py lines 41-47):
`if max(vels) != vels[-1]: return True else: return False`; `none` models
the `ValueError` / `IndexError` raised on an empty list. -/
def peak_reached (vels : List ℚ) : Option Bool :=
  match pymax vels, vels.getLast? with
  | some m, some l => some (decide (m ≠ l))
  | _, _ => none

/-- A value of the decoder's output dictionary: the four quantities are
floats, the `peaked` entry is a boolean. -/
inductive QoIValue where
  | num (q : ℚ)
  | flag (b : Bool)

/-- The output dictionary assembled by `B2dDecoder.get_blob_info` (b2duq.py
line 88): `{"maxV": maxV, "maxX": maxX, "avgTransp": avgTransp, "massLoss":
massLoss, "peaked": peaked}`, as an ordered association list.  The xarray
computations producing the five values (lines 66-87) are abstracted as
inputs. -/
def get_blob_info (maxV maxX avgTransp massLoss : ℚ) (peaked : Bool) :
    List (String × QoIValue) :=
  [("maxV", QoIValue.num maxV), ("maxX", QoIValue.num maxX),
   ("avgTransp", QoIValue.num avgTransp), ("massLoss", QoIValue.num massLoss),
   ("peaked", QoIValue.flag peaked)]

/-- The `output_columns` list returned by `define_params` (b2duq.py
line 322). -/
def output_columns : List String := ["maxV", "maxX", "avgTransp", "massLoss"]

/-- A concrete `adapt_dimension` oracle for evaluating runs: appends the
adaptation error `1` to the history and sets every QoI's sample list to
`[1]`, so each iteration's normalized error is `1 / 1 = 1`. -/
def constOneStep : AnalysisState → String → AnalysisState :=
  fun t _ => ⟨t.adaptation_errors ++ [1], fun _ => [1]⟩

/-- A concrete `adapt_dimension` oracle for evaluating runs: appends the
adaptation error `0` to the history and sets every QoI's sample list to
`[1]`, so each iteration's normalized error is `0 / 1 = 0` (instant
convergence for any positive tolerance). -/
def constZeroStep : AnalysisState → String → AnalysisState :=
  fun t _ => ⟨t.adaptation_errors ++ [0], fun _ => [1]⟩

/-- A concrete `adapt_dimension` oracle that appends the adaptation error
`1` and leaves the sample table untouched. -/
def keepSamplesStep : AnalysisState → String → AnalysisState :=
  fun t _ => ⟨t.adaptation_errors ++ [1], t.samples⟩

/-- A starting analysis state with an empty error history and
`samples[q] = [1]` for every QoI `q`. -/
def initState : AnalysisState := ⟨[], fun _ => [1]⟩

/-- A starting analysis state whose recorded first sample of every QoI is
`0`, the degenerate reference scale for the normalized error. -/
def zeroSampleState : AnalysisState := ⟨[], fun _ => [0]⟩

/-- A fuel-indexed unrolling of the `while` loop of `refine_to_precision`,
used to evaluate the well-founded `refineAux` on concrete inputs; with fuel
at least `max minrefs (maxrefs + 1) - counter` it agrees with `refineAux`
(theorem `refineAux_eq_refineLoop`), and `refine_to_precision` always calls
it within that bound. -/
def refineLoop (adaptStep : AnalysisState → String → AnalysisState)
    (param : String) (tol : ℚ) (minrefs maxrefs : Nat) :
    Nat → Nat → ℚ → AnalysisState → Option (Nat × AnalysisState)
  | gas, counter, error, s =>
    if counter < minrefs ∨ (tol < error ∧ counter ≤ maxrefs) then
      match gas with
      | 0 => none
      | Nat.succ g =>
        match computeError (refine_sampling_plan adaptStep 1 s param) param with
        | none => none
        | some e =>
          refineLoop adaptStep param tol minrefs maxrefs g (counter + 1) e
            (refine_sampling_plan adaptStep 1 s param)
    else some (counter, s)

theorem refineAux_eq_refineLoop
    (adaptStep : AnalysisState → String → AnalysisState)
    (param : String) (tol : ℚ) (minrefs maxrefs : Nat) :
    ∀ (gas counter : Nat) (error : ℚ) (s : AnalysisState),
      max minrefs (maxrefs + 1) ≤ gas + counter →
      refineAux adaptStep param tol minrefs maxrefs counter error s =
        refineLoop adaptStep param tol minrefs maxrefs gas counter error s := by
  intro gas
  induction gas with
  | zero =>
    intro counter error s hg
    rw [refineAux, refineLoop]
    have hc : ¬ (counter < minrefs ∨ (tol < error ∧ counter ≤ maxrefs)) := by
      rintro (h | ⟨_, h⟩) <;> omega
    rw [dif_neg hc, if_neg hc]
  | succ g ih =>
    intro counter error s hg
    rw [refineAux, refineLoop]
    by_cases hc : counter < minrefs ∨ (tol < error ∧ counter ≤ maxrefs)
    · rw [dif_pos hc, if_pos hc]
      cases h' : computeError (refine_sampling_plan adaptStep 1 s param) param with
      | none => rfl
      | some e => exact ih (counter + 1) e _ (by omega)
    · rw [dif_neg hc, if_neg hc]

/-- `refine_to_precision` as a finite unrolling, for concrete evaluation. -/
theorem refine_to_precision_eval
    (adaptStep : AnalysisState → String → AnalysisState)
    (param : String) (tol : ℚ) (minrefs maxrefs : Nat) (s : AnalysisState) :
    refine_to_precision adaptStep param tol minrefs maxrefs s =
      refineLoop adaptStep param tol minrefs maxrefs
        (max minrefs (maxrefs + 1)) 0 1 s :=
  refineAux_eq_refineLoop adaptStep param tol minrefs maxrefs _ 0 1 s (by omega)

/-- One refinement of the sampling plan is one `adapt_dimension` call. -/
theorem refine_sampling_plan_one
    (adaptStep : AnalysisState → String → AnalysisState)
    (s : AnalysisState) (param : String) :
    refine_sampling_plan adaptStep 1 s param = adaptStep s param := rfl

/-- The error update succeeds whenever the history is non-empty and the
first recorded sample of the QoI is non-zero. -/
theorem computeError_isSome (s : AnalysisState) (param : String)
    (h1 : s.adaptation_errors ≠ []) (v : ℚ)
    (h2 : (s.samples param)[0]? = some v) (h3 : v ≠ 0) :
    ∃ e, computeError s param = some e := by
  obtain ⟨err, herr⟩ :=
    Option.isSome_iff_exists.mp (List.getLast?_isSome.mpr h1)
  refine ⟨err / v, ?_⟩
  simp only [computeError, herr, h2]
  rw [if_neg h3]

/-- The loop performs at least `minrefs` iterations, and the counter never
decreases. -/
theorem refineAux_min (adaptStep : AnalysisState → String → AnalysisState)
    (param : String) (tol : ℚ) (minrefs maxrefs : Nat) :
    ∀ (counter : Nat) (error : ℚ) (s : AnalysisState) (n : Nat)
      (s' : AnalysisState),
      refineAux adaptStep param tol minrefs maxrefs counter error s =
        some (n, s') →
      minrefs ≤ n ∧ counter ≤ n := by
  intro counter error s
  induction counter, error, s using refineAux.induct adaptStep param tol minrefs maxrefs with
  | case1 counter error s hc hce =>
    intro n s' h
    rw [refineAux, dif_pos hc, hce] at h
    cases h
  | case2 counter error s hc v hce ih =>
    intro n s' h
    rw [refineAux, dif_pos hc, hce] at h
    have := ih n s' h
    omega
  | case3 counter error s hc =>
    intro n s' h
    rw [refineAux, dif_neg hc] at h
    push_neg at hc
    cases h
    omega

/-- The loop counter never exceeds `max minrefs (maxrefs + 1)` (relative to
its starting value). -/
theorem refineAux_bound (adaptStep : AnalysisState → String → AnalysisState)
    (param : String) (tol : ℚ) (minrefs maxrefs : Nat) :
    ∀ (counter : Nat) (error : ℚ) (s : AnalysisState) (n : Nat)
      (s' : AnalysisState),
      refineAux adaptStep param tol minrefs maxrefs counter error s =
        some (n, s') →
      n ≤ max (max minrefs (maxrefs + 1)) counter := by
  intro counter error s
  induction counter, error, s using refineAux.induct adaptStep param tol minrefs maxrefs with
  | case1 counter error s hc hce =>
    intro n s' h
    rw [refineAux, dif_pos hc, hce] at h
    cases h
  | case2 counter error s hc v hce ih =>
    intro n s' h
    rw [refineAux, dif_pos hc, hce] at h
    have hb := ih n s' h
    rcases hc with hc | ⟨_, hc⟩ <;> omega
  | case3 counter error s hc =>
    intro n s' h
    rw [refineAux, dif_neg hc] at h
    cases h
    omega

/-- If each `adapt_dimension` call appends exactly one entry to the error
history, the history grows by exactly the iteration count. -/
theorem refineAux_len (adaptStep : AnalysisState → String → AnalysisState)
    (param : String)
    (hA : ∀ t, (adaptStep t param).adaptation_errors.length =
      t.adaptation_errors.length + 1)
    (tol : ℚ) (minrefs maxrefs : Nat) :
    ∀ (counter : Nat) (error : ℚ) (s : AnalysisState) (n : Nat)
      (s' : AnalysisState),
      refineAux adaptStep param tol minrefs maxrefs counter error s =
        some (n, s') →
      s'.adaptation_errors.length + counter = s.adaptation_errors.length + n := by
  intro counter error s
  induction counter, error, s using refineAux.induct adaptStep param tol minrefs maxrefs with
  | case1 counter error s hc hce =>
    intro n s' h
    rw [refineAux, dif_pos hc, hce] at h
    cases h
  | case2 counter error s hc v hce ih =>
    intro n s' h
    rw [refineAux, dif_pos hc, hce] at h
    have h2 := ih n s' h
    rw [refine_sampling_plan_one] at h2
    have h3 := hA s
    omega
  | case3 counter error s hc =>
    intro n s' h
    cases h_eq : refineAux adaptStep param tol minrefs maxrefs counter error s
    · rw [h_eq] at h; cases h
    · rw [refineAux, dif_neg hc] at h
      cases h
      omega

/-- If each `adapt_dimension` call leaves a non-empty history and a
non-zero first sample for the QoI, the loop always returns normally. -/
theorem refineAux_total (adaptStep : AnalysisState → String → AnalysisState)
    (param : String)
    (hA : ∀ t, (adaptStep t param).adaptation_errors ≠ [])
    (hB : ∀ t, ∃ v, ((adaptStep t param).samples param)[0]? = some v ∧ v ≠ 0)
    (tol : ℚ) (minrefs maxrefs : Nat) :
    ∀ (counter : Nat) (error : ℚ) (s : AnalysisState),
      ∃ n s', refineAux adaptStep param tol minrefs maxrefs counter error s =
        some (n, s') := by
  intro counter error s
  induction counter, error, s using refineAux.induct adaptStep param tol minrefs maxrefs with
  | case1 counter error s hc hce =>
    exfalso
    rw [refine_sampling_plan_one] at hce
    obtain ⟨v, hv, hv0⟩ := hB s
    obtain ⟨e, he⟩ := computeError_isSome _ param (hA s) v hv hv0
    rw [hce] at he
    cases he
  | case2 counter error s hc v hce ih =>
    obtain ⟨n, s', h⟩ := ih
    exact ⟨n, s', by rw [refineAux, dif_pos hc, hce]; exact h⟩
  | case3 counter error s hc =>
    exact ⟨counter, s, by rw [refineAux, dif_neg hc]⟩

/-- **C1** (evaluation at the failing input): with `tol = 0.01`,
`minrefs = maxrefs = 5` and an `adapt_dimension` oracle whose normalized
error is always `1 > tol`, `refine_to_precision` performs and returns 6
refinement iterations — one more than `maxrefs`, against the claim of
exactly 5 when min = max = 5 and against the function's own docstring
("Maximum allowed number of refinements"): the loop guard
`counter <= maxrefs` admits one extra pass. -/
theorem refine_to_precision_six_iterations_when_min_eq_max_five :
    (refine_to_precision constOneStep "maxV" (1/100) 5 5 initState).map
      Prod.fst = some 6 := by
  rw [refine_to_precision_eval]
  norm_num [refineLoop, refine_sampling_plan, computeError, constOneStep,
    initState]

/-- **C2**: `refine_to_precision` performs at least `minrefs` refinement
iterations — whenever it returns a count, that count is at least `minrefs`,
however small the normalized errors were. -/
theorem refine_to_precision_at_least_min
    (adaptStep : AnalysisState → String → AnalysisState) (param : String)
    (tol : ℚ) (minrefs maxrefs : Nat) (s : AnalysisState) (n : Nat)
    (s' : AnalysisState)
    (h : refine_to_precision adaptStep param tol minrefs maxrefs s =
      some (n, s')) :
    minrefs ≤ n :=
  (refineAux_min adaptStep param tol minrefs maxrefs 0 1 s n s' h).1

/-- Witness for C2: an oracle that converges instantly (normalized error
`0`) still runs the full `minrefs = 2` iterations. -/
theorem refine_to_precision_at_least_min_witness :
    ∃ n s', refine_to_precision constZeroStep "maxV" (1/100) 2 5 initState =
      some (n, s') ∧ 2 ≤ n := by
  have h : refine_to_precision constZeroStep "maxV" (1/100) 2 5 initState =
      some (2, ⟨[0, 0], fun _ => [1]⟩) := by
    rw [refine_to_precision_eval]
    norm_num [refineLoop, refine_sampling_plan, computeError, constZeroStep,
      initState]
  exact ⟨2, ⟨[0, 0], fun _ => [1]⟩, h,
    refine_to_precision_at_least_min constZeroStep "maxV" (1/100) 2 5
      initState 2 ⟨[0, 0], fun _ => [1]⟩ h⟩

/-- **C4**: non-convergence is not an error — provided each
`adapt_dimension` call leaves a non-empty error history and a non-zero
first sample for the QoI, `refine_to_precision` always returns normally
with an iteration count, for every tolerance and iteration limits. -/
theorem refine_to_precision_returns_on_nonconvergence
    (adaptStep : AnalysisState → String → AnalysisState) (param : String)
    (hA : ∀ t, (adaptStep t param).adaptation_errors ≠ [])
    (hB : ∀ t, ∃ v, ((adaptStep t param).samples param)[0]? = some v ∧ v ≠ 0)
    (tol : ℚ) (minrefs maxrefs : Nat) (s : AnalysisState) :
    ∃ n s', refine_to_precision adaptStep param tol minrefs maxrefs s =
      some (n, s') :=
  refineAux_total adaptStep param hA hB tol minrefs maxrefs 0 1 s

/-- Witness for C4: the never-converging oracle (error always `1`, far
above the tolerance `1/100`) still returns normally. -/
theorem refine_to_precision_returns_on_nonconvergence_witness :
    ∃ n s', refine_to_precision constOneStep "maxV" (1/100) 1 2 initState =
      some (n, s') :=
  refine_to_precision_returns_on_nonconvergence constOneStep "maxV"
    (by intro t; simp [constOneStep])
    (by intro t; exact ⟨1, by simp [constOneStep], one_ne_zero⟩)
    (1/100) 1 2 initState

/-- **C5**: assuming each `adapt_dimension` call appends exactly one entry
to the adaptation-error history, the history after `refine_to_precision`
has grown by exactly the returned iteration count. -/
theorem refine_to_precision_history_growth
    (adaptStep : AnalysisState → String → AnalysisState) (param : String)
    (hA : ∀ t, (adaptStep t param).adaptation_errors.length =
      t.adaptation_errors.length + 1)
    (tol : ℚ) (minrefs maxrefs : Nat) (s : AnalysisState) (n : Nat)
    (s' : AnalysisState)
    (h : refine_to_precision adaptStep param tol minrefs maxrefs s =
      some (n, s')) :
    s'.adaptation_errors.length = s.adaptation_errors.length + n := by
  have h2 := refineAux_len adaptStep param hA tol minrefs maxrefs 0 1 s n s' h
  omega

/-- Witness for C5: a concrete 2-iteration run grows the history from 0 to
2 entries. -/
theorem refine_to_precision_history_growth_witness :
    ∃ n s', refine_to_precision constOneStep "maxV" (1/100) 1 1 initState =
      some (n, s') ∧
      s'.adaptation_errors.length = initState.adaptation_errors.length + n := by
  have h : refine_to_precision constOneStep "maxV" (1/100) 1 1 initState =
      some (2, ⟨[1, 1], fun _ => [1]⟩) := by
    rw [refine_to_precision_eval]
    norm_num [refineLoop, refine_sampling_plan, computeError, constOneStep,
      initState]
  exact ⟨2, ⟨[1, 1], fun _ => [1]⟩, h,
    refine_to_precision_history_growth constOneStep "maxV"
      (by intro t; simp [constOneStep]) (1/100) 1 1 initState 2
      ⟨[1, 1], fun _ => [1]⟩ h⟩

/-- **C6**: the refinement loop terminates — whenever `refine_to_precision`
returns a count it is at most `max minrefs (maxrefs + 1)`. -/
theorem refine_to_precision_iteration_bound
    (adaptStep : AnalysisState → String → AnalysisState) (param : String)
    (tol : ℚ) (minrefs maxrefs : Nat) (s : AnalysisState) (n : Nat)
    (s' : AnalysisState)
    (h : refine_to_precision adaptStep param tol minrefs maxrefs s =
      some (n, s')) :
    n ≤ max minrefs (maxrefs + 1) := by
  have hb := refineAux_bound adaptStep param tol minrefs maxrefs 0 1 s n s' h
  omega

/-- Witness for C6: a non-converging run with `minrefs = maxrefs = 0`
returns 1 iteration, within the bound `max 0 (0 + 1) = 1`. -/
theorem refine_to_precision_iteration_bound_witness :
    ∃ n s', refine_to_precision constOneStep "maxV" (1/100) 0 0 initState =
      some (n, s') ∧ n ≤ max 0 (0 + 1) := by
  have h : refine_to_precision constOneStep "maxV" (1/100) 0 0 initState =
      some (1, ⟨[1], fun _ => [1]⟩) := by
    rw [refine_to_precision_eval]
    norm_num [refineLoop, refine_sampling_plan, computeError, constOneStep,
      initState]
  exact ⟨1, ⟨[1], fun _ => [1]⟩, h,
    refine_to_precision_iteration_bound constOneStep "maxV" (1/100) 0 0
      initState 1 ⟨[1], fun _ => [1]⟩ h⟩

/-- **C7**: `refine_campaign` is the strictly sequential composition of the
`'maxV'` pass followed by the `'maxX'` pass over the one shared analysis
state: whatever state `s1` the completed `'maxV'` pass produces is exactly
the state the `'maxX'` pass starts from, and the campaign's result is that
second pass's final state with both counts. -/
theorem refine_campaign_sequential
    (adaptStep : AnalysisState → String → AnalysisState) (s : AnalysisState)
    (n1 : Nat) (s1 : AnalysisState) (n2 : Nat) (s2 : AnalysisState)
    (h1 : refine_to_precision adaptStep "maxV" (1/100) 5 10 s = some (n1, s1))
    (h2 : refine_to_precision adaptStep "maxX" (1/100) 5 10 s1 = some (n2, s2)) :
    refine_campaign adaptStep s = some ((n1, n2), s2) := by
  rw [refine_campaign, h1]
  dsimp only
  rw [h2]

/-- Witness for C7: with the instantly-converging oracle each pass runs its
5 mandatory iterations, and the campaign chains them over the shared
state: 5 errors after the first pass, 10 after the second. -/
theorem refine_campaign_sequential_witness :
    refine_campaign constZeroStep initState =
      some ((5, 5), ⟨[0, 0, 0, 0, 0, 0, 0, 0, 0, 0], fun _ => [1]⟩) := by
  have h1 : refine_to_precision constZeroStep "maxV" (1/100) 5 10 initState =
      some (5, ⟨[0, 0, 0, 0, 0], fun _ => [1]⟩) := by
    rw [refine_to_precision_eval]
    norm_num [refineLoop, refine_sampling_plan, computeError, constZeroStep,
      initState]
  have h2 : refine_to_precision constZeroStep "maxX" (1/100) 5 10
      ⟨[0, 0, 0, 0, 0], fun _ => [1]⟩ =
      some (5, ⟨[0, 0, 0, 0, 0, 0, 0, 0, 0, 0], fun _ => [1]⟩) := by
    rw [refine_to_precision_eval]
    norm_num [refineLoop, refine_sampling_plan, computeError, constZeroStep]
  exact refine_campaign_sequential constZeroStep initState 5
    ⟨[0, 0, 0, 0, 0], fun _ => [1]⟩ 5
    ⟨[0, 0, 0, 0, 0, 0, 0, 0, 0, 0], fun _ => [1]⟩ h1 h2

/-- **C9**: the normalization is an unguarded division — if the QoI's first
recorded sample is `0` (and the oracle, like the real library, keeps the
sample table and leaves a non-empty history), any run that performs at
least one iteration fails instead of returning a value. -/
theorem refine_to_precision_zero_first_sample
    (adaptStep : AnalysisState → String → AnalysisState) (param : String)
    (tol : ℚ) (minrefs maxrefs : Nat) (s : AnalysisState)
    (h1 : ∀ t, (adaptStep t param).samples = t.samples)
    (h2 : ∀ t, (adaptStep t param).adaptation_errors ≠ [])
    (h3 : (s.samples param)[0]? = some 0)
    (h4 : 0 < minrefs) :
    refine_to_precision adaptStep param tol minrefs maxrefs s = none := by
  have hc : (0 : Nat) < minrefs ∨ (tol < 1 ∧ (0 : Nat) ≤ maxrefs) := Or.inl h4
  rw [refine_to_precision, refineAux, dif_pos hc]
  obtain ⟨err, herr⟩ :=
    Option.isSome_iff_exists.mp (List.getLast?_isSome.mpr (h2 s))
  have hnone : computeError (refine_sampling_plan adaptStep 1 s param) param =
      none := by
    rw [refine_sampling_plan_one]
    simp [computeError, herr, h1 s, h3]
  rw [hnone]

/-- Witness for C9: a state whose first `maxV` sample is `0` makes the call
fail on the first iteration. -/
theorem refine_to_precision_zero_first_sample_witness :
    refine_to_precision keepSamplesStep "maxV" (1/100) 1 1 zeroSampleState =
      none :=
  refine_to_precision_zero_first_sample keepSamplesStep "maxV" (1/100) 1 1
    zeroSampleState (fun _ => rfl) (by intro t; simp [keepSamplesStep]) rfl
    (by decide)

/-- **C10**: a successfully decoded run's dictionary has exactly the five
keys `maxV`, `maxX`, `avgTransp`, `massLoss`, `peaked` — the four declared
`output_columns` plus the always-present `peaked` flag, which is not among
the campaign's declared output columns. -/
theorem get_blob_info_keys :
    ∀ (maxV maxX avgTransp massLoss : ℚ) (peaked : Bool),
      (get_blob_info maxV maxX avgTransp massLoss peaked).map Prod.fst =
        output_columns ++ ["peaked"] ∧ "peaked" ∉ output_columns := by
  intro a b c d e
  exact ⟨rfl, by simp [output_columns]⟩

/-- **C3**: the normalized error `refine_to_precision` compares against the
tolerance is exactly the most recent entry of the adaptation-error history
(the per-iteration maximum hierarchical surplus recorded by the library)
divided by the QoI's value at the zero index, `samples[param][0]` — and it
is defined exactly when the history is non-empty and that first sample is
non-zero. -/
theorem computeError_some_iff :
    ∀ (s : AnalysisState) (param : String) (e : ℚ),
      computeError s param = some e ↔
        ∃ err v, s.adaptation_errors.getLast? = some err ∧
          (s.samples param)[0]? = some v ∧ v ≠ 0 ∧ e = err / v := by
  intro s param e
  constructor
  · intro h
    unfold computeError at h
    rcases hl : s.adaptation_errors.getLast? with _ | err
    · rw [hl] at h; cases h
    · rw [hl] at h
      dsimp only at h
      rcases hv : (s.samples param)[0]? with _ | v
      · rw [hv] at h; cases h
      · rw [hv] at h
        dsimp only at h
        by_cases h0 : v = 0
        · rw [if_pos h0] at h; cases h
        · rw [if_neg h0] at h
          cases h
          exact ⟨err, v, rfl, rfl, h0, rfl⟩
  · rintro ⟨err, v, hl, hv, h0, rfl⟩
    unfold computeError
    rw [hl]
    dsimp only
    rw [hv]
    dsimp only
    rw [if_neg h0]

/-- Folding `max` distributes over an outer `max` on the seed. -/
theorem foldl_max_comm (l : List ℚ) :
    ∀ a b : ℚ, max a (l.foldl max b) = l.foldl max (max a b) := by
  induction l with
  | nil => intro a b; rfl
  | cons c l' ih =>
    intro a b
    simp only [List.foldl_cons]
    rw [ih, max_assoc]

/-- `pymax` on a non-empty list is Mathlib's `List.maximum`. -/
theorem pymax_eq_maximum :
    ∀ (x : ℚ) (xs : List ℚ),
      (x :: xs).maximum = ((xs.foldl max x : ℚ) : WithBot ℚ) := by
  intro x xs
  induction xs generalizing x with
  | nil => simp [List.maximum_cons]
  | cons y ys ih =>
    rw [List.maximum_cons, ih y, List.foldl_cons, ← WithBot.coe_sup,
      WithBot.coe_inj, sup_eq_max, foldl_max_comm]

/-- **C8**: for a non-empty velocity list, `peak_reached` returns a boolean
that is `true` exactly when the maximum of the list differs from its last
element — in particular it is `false` whenever the last element attains the
maximum, even if an earlier element ties with it. -/
theorem peak_reached_true_iff :
    ∀ (vels : List ℚ) (h : vels ≠ []),
      ∃ b, peak_reached vels = some b ∧
        (b = true ↔ vels.maximum ≠ ((vels.getLast h : ℚ) : WithBot ℚ)) := by
  intro vels h
  obtain ⟨x, xs, rfl⟩ := List.exists_cons_of_ne_nil h
  refine ⟨decide (xs.foldl max x ≠ (x :: xs).getLast h), ?_, ?_⟩
  · rw [peak_reached, List.getLast?_eq_getLast (x :: xs) h]
    dsimp only [pymax]
  · rw [decide_eq_true_eq, pymax_eq_maximum, ne_eq, ne_eq, WithBot.coe_inj]

/-- Witness for C8: on `[1, 2]` the last element attains the maximum, so
`peak_reached` reports `false` and the characterization holds. -/
theorem peak_reached_true_iff_witness :
    ∃ b, peak_reached [1, 2] = some b ∧
      (b = true ↔ ([1, 2] : List ℚ).maximum ≠
        ((([1, 2] : List ℚ).getLast (by simp) : ℚ) : WithBot ℚ)) :=
  peak_reached_true_iff [1, 2] (by simp)
